import Mathlib

/-!
Shallow embedding of the run-coordination core of the
heroku-auditevents-logger repository.

The ledger table `audit_events_log` (src/models.py) is modelled as a list of
`RunRecord`s in insertion order; the uniqueness constraint on `process_date`
is reflected by `acquire_processing_lock` failing (IntegrityError path) when
a row for the date is already present.  Dates are modelled as natural
numbers (absolute day indices) and timestamps as integers (seconds);
statuses are the literal strings the source uses.  The external HTTP fetch
(requests.get in src/app.py `get_audit_events`) is modelled by an explicit
outcome datum supplied to the orchestrator; the error-text decoding of
`_parse_heroku_api_error` (src/app.py lines 143-191) is abstracted as the
`error_details` string carried by a non-200 response.
-/

/-- One row of the `audit_events_log` table (src/models.py lines 19-35). -/
structure RunRecord where
  id : Nat
  process_date : Nat
  status : String
  events_count : Nat
  error_message : Option String
  created_at : Int
  updated_at : Int
deriving Repr, DecidableEq

/-- The ledger table: rows in insertion order. -/
abbrev Ledger := List RunRecord

/-- Terminal-status test, src/app.py line 306:
`existing_record.status in ['SUCCESS', 'FAILED', 'ERROR']`. -/
def isTerminal (s : String) : Bool :=
  s == "SUCCESS" || s == "FAILED" || s == "ERROR"

/-- src/app.py `check_existing_process` (lines 51-60): the first row whose
`process_date` equals the target date (`query(...).filter(...).first()`). -/
def check_existing_process (target_date : Nat) (L : Ledger) : Option RunRecord :=
  (L.filter (fun r => r.process_date == target_date)).head?

/-- src/app.py `acquire_processing_lock` (lines 62-85): insert a fresh
`PROCESSING` row with `events_count = 0`; the unique constraint on
`process_date` (src/models.py line 24) raises IntegrityError when a row for
the date already exists, in which case the session is rolled back and the
function returns False.  `now` is `datetime.utcnow()` (the column defaults
of `created_at`/`updated_at`), `newId` the store-assigned surrogate id. -/
def newProcessingRecord (target_date : Nat) (now : Int) (newId : Nat) :
    RunRecord :=
  { id := newId, process_date := target_date, status := "PROCESSING",
    events_count := 0, error_message := none,
    created_at := now, updated_at := now }

/-- The insert-or-fail step of src/app.py lines 64-82, over the modelled
table: the row is appended when no row for the date exists, and the
IntegrityError rollback path returns False leaving the table unchanged. -/
def acquire_processing_lock (target_date : Nat) (now : Int) (newId : Nat)
    (L : Ledger) : Bool × Ledger :=
  if L.any (fun r => r.process_date == target_date) then
    (false, L)
  else
    (true, L ++ [newProcessingRecord target_date now newId])

/-- The field overwrite performed by src/app.py lines 98-101 on the row
found by `release_processing_lock`. -/
def releaseUpdate (r : RunRecord) (final_status : String) (events_count : Nat)
    (error_message : Option String) (now : Int) : RunRecord :=
  { r with status := final_status, events_count := events_count,
           error_message := error_message, updated_at := now }

/-- src/app.py `release_processing_lock` (lines 87-108): find the first row
with the given date and status `PROCESSING` (`.first()`), overwrite its
status, events_count and error_message and refresh `updated_at`; when no
such row exists only a warning is logged and the table is left unchanged. -/
def release_processing_lock (target_date : Nat) (final_status : String)
    (events_count : Nat) (error_message : Option String) (now : Int) :
    Ledger → Ledger
  | [] => []
  | r :: rs =>
    if r.process_date = target_date ∧ r.status = "PROCESSING" then
      releaseUpdate r final_status events_count error_message now :: rs
    else
      r :: release_processing_lock target_date final_status events_count
            error_message now rs

/-- The cutoff computed at src/app.py line 117:
`datetime.utcnow() - timedelta(hours=hours_threshold)`, in seconds. -/
def stuckCutoff (hours_threshold : Nat) (now : Int) : Int :=
  now - hours_threshold * 3600

/-- src/app.py `cleanup_stuck_processes` (lines 110-141): every row with
status `PROCESSING` and `created_at` strictly before the cutoff is set to
`ERROR` with the diagnostic `'Process was stuck and cleaned up'` and a
refreshed `updated_at`; all other rows are untouched. -/
def cleanup_stuck_processes (hours_threshold : Nat) (now : Int) (L : Ledger) :
    Ledger :=
  L.map (fun r =>
    if r.status = "PROCESSING" ∧ r.created_at < stuckCutoff hours_threshold now
    then { r with status := "ERROR",
                  error_message := some "Process was stuck and cleaned up",
                  updated_at := now }
    else r)

/-- The result dictionary returned by src/app.py `get_audit_events`
(lines 270-295): keys `success`, `error`, `events`, `count`. -/
structure FetchResult where
  success : Bool
  error : Option String
  events : List String
  count : Nat
deriving Repr, DecidableEq

/-- Outcome of the HTTP call at src/app.py line 251: either a response with
a status code (a 200 carries the decoded event list; `error_details`
abstracts the provider diagnostic `_parse_heroku_api_error` extracts from a
non-200 body), or a `requests.exceptions.RequestException`. -/
inductive HttpOutcome where
  | response (status_code : Nat) (events : List String) (error_details : String)
  | requestException (msg : String)
deriving Repr, DecidableEq

/-- src/app.py `get_audit_events` (lines 205-295), as a function of the HTTP
outcome: 200 yields a success result with the events and their count; any
other status yields a failure result with the composed API error message;
a RequestException is caught and yields a failure result. -/
def get_audit_events : HttpOutcome → FetchResult
  | .response sc evs err =>
    if sc = 200 then
      { success := true, error := none, events := evs, count := evs.length }
    else
      { success := false,
        error := some (s!"API request failed with status {sc}: {err}"),
        events := [], count := 0 }
  | .requestException msg =>
    { success := false, error := some (s!"Request failed: {msg}"),
      events := [], count := 0 }

/-- Behaviour of the fetch step inside the orchestrator try-block: either
the HTTP call completes with an outcome handled inside `get_audit_events`,
or some other exception escapes it (e.g. `response.json()` failing) and is
caught by the orchestrator at src/app.py line 339. -/
inductive FetchBehavior where
  | http (outcome : HttpOutcome)
  | raises (msg : String)
deriving Repr, DecidableEq

/-- One call of `release_processing_lock` as the orchestrator issues it. -/
structure ReleaseCall where
  target_date : Nat
  final_status : String
  events_count : Nat
  error_message : Option String
deriving Repr, DecidableEq

/-- Observable outcome of one orchestrator invocation: the boolean return
value of `process_audit_events`, the final ledger, the release calls it
made, whether the fetch step ran, and whether the lock was acquired. -/
structure OrchResult where
  retVal : Bool
  ledger : Ledger
  releases : List ReleaseCall
  fetchCalled : Bool
  acquired : Bool
deriving Repr, DecidableEq

/-- src/app.py `process_audit_events`, lines 310-349: the part after the
terminal-record check — acquire the lock, run the fetch, and resolve with
exactly one release call per path (success / provider failure / unexpected
exception). -/
def process_audit_events_claimed (target_date : Nat) (fetch : FetchBehavior)
    (now : Int) (newId : Nat) (L : Ledger) : OrchResult :=
  match acquire_processing_lock target_date now newId L with
  | (false, L1) =>
    { retVal := false, ledger := L1, releases := [],
      fetchCalled := false, acquired := false }
  | (true, L1) =>
    match fetch with
    | .http outcome =>
      let result := get_audit_events outcome
      if result.success then
        { retVal := true,
          ledger := release_processing_lock target_date "SUCCESS"
                      result.count none now L1,
          releases := [⟨target_date, "SUCCESS", result.count, none⟩],
          fetchCalled := true, acquired := true }
      else
        { retVal := false,
          ledger := release_processing_lock target_date "FAILED"
                      0 result.error now L1,
          releases := [⟨target_date, "FAILED", 0, result.error⟩],
          fetchCalled := true, acquired := true }
    | .raises msg =>
      { retVal := false,
        ledger := release_processing_lock target_date "ERROR" 0
                    (some (s!"Unexpected error: {msg}")) now L1,
        releases := [⟨target_date, "ERROR", 0,
                      some (s!"Unexpected error: {msg}")⟩],
        fetchCalled := true, acquired := true }

/-- src/app.py `process_audit_events` (lines 297-349): short-circuit when a
terminal record already exists for the date, otherwise claim and resolve. -/
def process_audit_events (target_date : Nat) (fetch : FetchBehavior)
    (now : Int) (newId : Nat) (L : Ledger) : OrchResult :=
  match check_existing_process target_date L with
  | some r =>
    if isTerminal r.status then
      { retVal := false, ledger := L, releases := [],
        fetchCalled := false, acquired := false }
    else
      process_audit_events_claimed target_date fetch now newId L
  | none => process_audit_events_claimed target_date fetch now newId L

/-- src/app.py `main` (lines 365-372): exit code 0 when
`process_audit_events` returned True, exit code 1 otherwise. -/
def mainExitCode (processResult : Bool) : Nat :=
  if processResult then 0 else 1

/-- src/db_manager.py `reset_date` (lines 92-119): delete the first row for
the given date regardless of its status; no change when none exists. -/
def reset_date (target_date : Nat) : Ledger → Ledger
  | [] => []
  | r :: rs =>
    if r.process_date = target_date then rs
    else r :: reset_date target_date rs

/-- src/streamlit_app.py `delete_audit_events_logs` (lines 219-229): delete
every row whose id is in the given list, returning the deleted count and
the remaining table. -/
def delete_audit_events_logs (record_ids : List Nat) (L : Ledger) :
    Nat × Ledger :=
  (L.countP (fun r => record_ids.contains r.id),
   L.filter (fun r => !(record_ids.contains r.id)))

/-! ### General lemmas about the ledger operations -/

theorem exists_date_iff_any (d : Nat) (L : Ledger) :
    (∃ r ∈ L, r.process_date = d) ↔
      L.any (fun r => r.process_date == d) = true := by
  simp [List.any_eq_true]

theorem acquire_eq_of_exists (d : Nat) (now : Int) (i : Nat) (L : Ledger)
    (h : ∃ r ∈ L, r.process_date = d) :
    acquire_processing_lock d now i L = (false, L) := by
  simp [acquire_processing_lock, (exists_date_iff_any d L).mp h]

theorem acquire_eq_of_not_exists (d : Nat) (now : Int) (i : Nat) (L : Ledger)
    (h : ¬ ∃ r ∈ L, r.process_date = d) :
    acquire_processing_lock d now i L
      = (true, L ++ [newProcessingRecord d now i]) := by
  have hA : L.any (fun r => r.process_date == d) = false := by
    rw [← Bool.not_eq_true]
    exact fun hc => h ((exists_date_iff_any d L).mpr hc)
  simp [acquire_processing_lock, hA]

/-- C1: `acquire` returns true iff no record for the date existed; on
success the new ledger holds exactly one record for the date, with status
PROCESSING and events_count 0; on failure the ledger is unchanged.  Of two
consecutive acquire calls for the same date, at most one returns true, and
exactly one returns true when no record for the date existed beforehand. -/
theorem acquire_processing_lock_spec (d : Nat) (now now2 : Int) (i1 i2 : Nat)
    (L : Ledger) :
    ((acquire_processing_lock d now i1 L).fst = true ↔
       ¬ ∃ r ∈ L, r.process_date = d)
    ∧ ((∃ r ∈ L, r.process_date = d) →
        (acquire_processing_lock d now i1 L).snd = L)
    ∧ ((¬ ∃ r ∈ L, r.process_date = d) →
        ((acquire_processing_lock d now i1 L).snd.countP
            (fun r => r.process_date == d) = 1
         ∧ ∀ r ∈ (acquire_processing_lock d now i1 L).snd,
             r.process_date = d → r.status = "PROCESSING" ∧ r.events_count = 0))
    ∧ ¬ ((acquire_processing_lock d now i1 L).fst = true
          ∧ (acquire_processing_lock d now2 i2
               (acquire_processing_lock d now i1 L).snd).fst = true)
    ∧ ((¬ ∃ r ∈ L, r.process_date = d) →
        (acquire_processing_lock d now i1 L).fst = true
        ∧ (acquire_processing_lock d now2 i2
             (acquire_processing_lock d now i1 L).snd).fst = false) := by
  by_cases hE : ∃ r ∈ L, r.process_date = d
  · rw [acquire_eq_of_exists d now i1 L hE]
    exact ⟨by simpa using hE, fun _ => rfl, fun h => absurd hE h,
           fun h => by simpa using h.1, fun h => absurd hE h⟩
  · rw [acquire_eq_of_not_exists d now i1 L hE]
    have hmem : ∃ r ∈ L ++ [newProcessingRecord d now i1],
        r.process_date = d :=
      ⟨newProcessingRecord d now i1, by simp [newProcessingRecord]⟩
    have h2 := acquire_eq_of_exists d now2 i2
        (L ++ [newProcessingRecord d now i1]) hmem
    have hcount : (L ++ [newProcessingRecord d now i1]).countP
        (fun r => r.process_date == d) = 1 := by
      rw [List.countP_append]
      have hL : L.countP (fun r => r.process_date == d) = 0 := by
        rw [List.countP_eq_zero]
        intro a ha
        simp only [beq_iff_eq]
        exact fun hd => hE ⟨a, ha, hd⟩
      simp [hL, newProcessingRecord]
    refine ⟨by simpa using hE, fun h => absurd h hE, fun _ => ⟨hcount, ?_⟩,
            ?_, fun _ => ⟨rfl, ?_⟩⟩
    · intro r hr hd
      rcases List.mem_append.mp hr with h1 | h1
      · exact absurd ⟨r, h1, hd⟩ hE
      · have hres : r = newProcessingRecord d now i1 := by simpa using h1
        subst hres
        exact ⟨rfl, rfl⟩
    · rintro ⟨-, hc⟩
      rw [show (true, L ++ [newProcessingRecord d now i1]).snd
            = L ++ [newProcessingRecord d now i1] from rfl, h2] at hc
      simp at hc
    · rw [show (true, L ++ [newProcessingRecord d now i1]).snd
            = L ++ [newProcessingRecord d now i1] from rfl, h2]

/-- C1 witness: on the empty ledger the first acquire for date 7 succeeds
and the immediately following acquire for date 7 fails. -/
theorem acquire_processing_lock_spec_witness :
    (¬ ∃ r ∈ ([] : Ledger), r.process_date = 7)
    ∧ ((acquire_processing_lock 7 100 2 ([] : Ledger)).fst = true
        ∧ (acquire_processing_lock 7 200 3
            (acquire_processing_lock 7 100 2 ([] : Ledger)).snd).fst = false) :=
  ⟨by simp, (acquire_processing_lock_spec 7 100 200 2 3 []).2.2.2.2 (by simp)⟩

/-- C1 counterexample: when a record for the date already exists (here a
SUCCESS record for date 7), two consecutive acquire calls both return
false, so it is not the case that exactly one of them returns true. -/
theorem acquire_exactly_one_counterexample :
    ¬ ((((acquire_processing_lock 7 100 2
            [⟨1, 7, "SUCCESS", 3, none, 0, 0⟩]).fst = true)
        ∧ ((acquire_processing_lock 7 200 3
             (acquire_processing_lock 7 100 2
               [⟨1, 7, "SUCCESS", 3, none, 0, 0⟩]).snd).fst = false))
       ∨ (((acquire_processing_lock 7 100 2
             [⟨1, 7, "SUCCESS", 3, none, 0, 0⟩]).fst = false)
          ∧ ((acquire_processing_lock 7 200 3
               (acquire_processing_lock 7 100 2
                 [⟨1, 7, "SUCCESS", 3, none, 0, 0⟩]).snd).fst = true))) := by
  decide

theorem isTerminal_ne_processing (s : String) (h : isTerminal s = true) :
    s ≠ "PROCESSING" := by
  intro hs
  subst hs
  exact absurd h (by decide)

theorem mem_release_of_not_processing (d : Nat) (fs : String) (ec : Nat)
    (em : Option String) (now : Int) (L : Ledger) (r : RunRecord)
    (hr : r ∈ L) (hs : r.status ≠ "PROCESSING") :
    r ∈ release_processing_lock d fs ec em now L := by
  induction L with
  | nil => cases hr
  | cons a as ih =>
    simp only [release_processing_lock]
    by_cases hc : a.process_date = d ∧ a.status = "PROCESSING"
    · rw [if_pos hc]
      rcases List.mem_cons.mp hr with h1 | h1
      · exact absurd (h1 ▸ hc.2) hs
      · exact List.mem_cons_of_mem _ h1
    · rw [if_neg hc]
      rcases List.mem_cons.mp hr with h1 | h1
      · exact h1 ▸ List.mem_cons_self _ _
      · exact List.mem_cons_of_mem _ (ih h1)

theorem release_mem_cases (d : Nat) (fs : String) (ec : Nat)
    (em : Option String) (now : Int) (L : Ledger) :
    ∀ r2 ∈ release_processing_lock d fs ec em now L,
      r2 ∈ L ∨ ∃ r ∈ L, r.status = "PROCESSING"
        ∧ r2 = releaseUpdate r fs ec em now := by
  induction L with
  | nil => intro r2 h2; simp [release_processing_lock] at h2
  | cons a as ih =>
    intro r2 h2
    simp only [release_processing_lock] at h2
    by_cases hc : a.process_date = d ∧ a.status = "PROCESSING"
    · rw [if_pos hc] at h2
      rcases List.mem_cons.mp h2 with h1 | h1
      · exact Or.inr ⟨a, List.mem_cons_self a as, hc.2, h1⟩
      · exact Or.inl (List.mem_cons_of_mem _ h1)
    · rw [if_neg hc] at h2
      rcases List.mem_cons.mp h2 with h1 | h1
      · exact Or.inl (h1 ▸ List.mem_cons_self a as)
      · rcases ih r2 h1 with h | ⟨r, hrm, hrp, hre⟩
        · exact Or.inl (List.mem_cons_of_mem _ h)
        · exact Or.inr ⟨r, List.mem_cons_of_mem _ hrm, hrp, hre⟩

theorem mem_cleanup_of_not_stuck (hrs : Nat) (now : Int) (L : Ledger)
    (r : RunRecord) (hr : r ∈ L)
    (h : ¬ (r.status = "PROCESSING" ∧ r.created_at < stuckCutoff hrs now)) :
    r ∈ cleanup_stuck_processes hrs now L := by
  unfold cleanup_stuck_processes
  exact List.mem_map.mpr ⟨r, hr, by rw [if_neg h]⟩

theorem cleanup_mem_cases (hrs : Nat) (now : Int) (L : Ledger) :
    ∀ r2 ∈ cleanup_stuck_processes hrs now L,
      r2 ∈ L ∨ ∃ r ∈ L, r.status = "PROCESSING" ∧ r2.status = "ERROR" := by
  intro r2 h2
  rcases List.mem_map.mp h2 with ⟨r, hr, hre⟩
  by_cases hc : r.status = "PROCESSING" ∧ r.created_at < stuckCutoff hrs now
  · exact Or.inr ⟨r, hr, hc.1, by rw [← hre, if_pos hc]⟩
  · refine Or.inl ?_
    rw [← hre, if_neg hc]
    exact hr

theorem acquire_mem_cases (d : Nat) (now : Int) (i : Nat) (L : Ledger) :
    ∀ r2 ∈ (acquire_processing_lock d now i L).snd,
      r2 ∈ L ∨ r2.status = "PROCESSING" := by
  intro r2 h2
  by_cases hE : ∃ r ∈ L, r.process_date = d
  · rw [acquire_eq_of_exists d now i L hE] at h2
    exact Or.inl h2
  · rw [acquire_eq_of_not_exists d now i L hE] at h2
    rcases List.mem_append.mp h2 with h1 | h1
    · exact Or.inl h1
    · have hres : r2 = newProcessingRecord d now i := by simpa using h1
      exact Or.inr (hres ▸ rfl)

theorem mem_acquire_of_mem (d : Nat) (now : Int) (i : Nat) (L : Ledger)
    (r : RunRecord) (hr : r ∈ L) :
    r ∈ (acquire_processing_lock d now i L).snd := by
  by_cases hE : ∃ r1 ∈ L, r1.process_date = d
  · rw [acquire_eq_of_exists d now i L hE]
    exact hr
  · rw [acquire_eq_of_not_exists d now i L hE]
    exact List.mem_append.mpr (Or.inl hr)

/-- C2: a record whose status is terminal (SUCCESS, FAILED or ERROR) is left
in the ledger unchanged by release, cleanup and acquire; and every record
of the ledger after any of these operations either was already present or
arose from a PROCESSING record (overwritten by release or set to ERROR by
cleanup) or is the freshly inserted PROCESSING record of acquire. -/
theorem terminal_status_immutable (d : Nat) (fs : String) (ec : Nat)
    (em : Option String) (now : Int) (hrs : Nat) (i : Nat) (L : Ledger) :
    (∀ r ∈ L, isTerminal r.status = true →
       r ∈ release_processing_lock d fs ec em now L
       ∧ r ∈ cleanup_stuck_processes hrs now L
       ∧ r ∈ (acquire_processing_lock d now i L).snd)
    ∧ (∀ r2 ∈ release_processing_lock d fs ec em now L,
        r2 ∈ L ∨ ∃ r ∈ L, r.status = "PROCESSING"
          ∧ r2 = releaseUpdate r fs ec em now)
    ∧ (∀ r2 ∈ cleanup_stuck_processes hrs now L,
        r2 ∈ L ∨ ∃ r ∈ L, r.status = "PROCESSING" ∧ r2.status = "ERROR")
    ∧ (∀ r2 ∈ (acquire_processing_lock d now i L).snd,
        r2 ∈ L ∨ r2.status = "PROCESSING") := by
  refine ⟨fun r hr ht => ⟨?_, ?_, ?_⟩,
          release_mem_cases d fs ec em now L,
          cleanup_mem_cases hrs now L,
          acquire_mem_cases d now i L⟩
  · exact mem_release_of_not_processing d fs ec em now L r hr
      (isTerminal_ne_processing r.status ht)
  · exact mem_cleanup_of_not_stuck hrs now L r hr
      (fun hc => isTerminal_ne_processing r.status ht hc.1)
  · exact mem_acquire_of_mem d now i L r hr

/-- C2 witness: a SUCCESS record survives a release, a cleanup sweep and an
acquire for its own date unchanged. -/
theorem terminal_status_immutable_witness :
    (⟨1, 7, "SUCCESS", 3, none, 0, 0⟩ : RunRecord)
        ∈ release_processing_lock 7 "FAILED" 0 none 50
            [⟨1, 7, "SUCCESS", 3, none, 0, 0⟩]
    ∧ (⟨1, 7, "SUCCESS", 3, none, 0, 0⟩ : RunRecord)
        ∈ cleanup_stuck_processes 24 999999
            [⟨1, 7, "SUCCESS", 3, none, 0, 0⟩]
    ∧ (⟨1, 7, "SUCCESS", 3, none, 0, 0⟩ : RunRecord)
        ∈ (acquire_processing_lock 7 50 9
            [⟨1, 7, "SUCCESS", 3, none, 0, 0⟩]).snd :=
  (terminal_status_immutable 7 "FAILED" 0 none 50 24 9
      [⟨1, 7, "SUCCESS", 3, none, 0, 0⟩]).1
    ⟨1, 7, "SUCCESS", 3, none, 0, 0⟩ (by decide) (by decide)

theorem claimed_eq_acquire_false (d : Nat) (fb : FetchBehavior) (now : Int)
    (i : Nat) (L L1 : Ledger)
    (hacq : acquire_processing_lock d now i L = (false, L1)) :
    process_audit_events_claimed d fb now i L =
      { retVal := false, ledger := L1, releases := [],
        fetchCalled := false, acquired := false } := by
  unfold process_audit_events_claimed
  rw [hacq]

theorem claimed_eq_http_success (d : Nat) (o : HttpOutcome) (now : Int)
    (i : Nat) (L L1 : Ledger)
    (hacq : acquire_processing_lock d now i L = (true, L1))
    (hs : (get_audit_events o).success = true) :
    process_audit_events_claimed d (.http o) now i L =
      { retVal := true,
        ledger := release_processing_lock d "SUCCESS"
                    (get_audit_events o).count none now L1,
        releases := [⟨d, "SUCCESS", (get_audit_events o).count, none⟩],
        fetchCalled := true, acquired := true } := by
  unfold process_audit_events_claimed
  rw [hacq]
  simp [hs]

theorem claimed_eq_http_failure (d : Nat) (o : HttpOutcome) (now : Int)
    (i : Nat) (L L1 : Ledger)
    (hacq : acquire_processing_lock d now i L = (true, L1))
    (hs : (get_audit_events o).success = false) :
    process_audit_events_claimed d (.http o) now i L =
      { retVal := false,
        ledger := release_processing_lock d "FAILED" 0
                    (get_audit_events o).error now L1,
        releases := [⟨d, "FAILED", 0, (get_audit_events o).error⟩],
        fetchCalled := true, acquired := true } := by
  unfold process_audit_events_claimed
  rw [hacq]
  simp [hs]

theorem claimed_eq_raises (d : Nat) (m : String) (now : Int)
    (i : Nat) (L L1 : Ledger)
    (hacq : acquire_processing_lock d now i L = (true, L1)) :
    process_audit_events_claimed d (.raises m) now i L =
      { retVal := false,
        ledger := release_processing_lock d "ERROR" 0
                    (some (s!"Unexpected error: {m}")) now L1,
        releases := [⟨d, "ERROR", 0, some (s!"Unexpected error: {m}")⟩],
        fetchCalled := true, acquired := true } := by
  unfold process_audit_events_claimed
  rw [hacq]

theorem process_cases (d : Nat) (fb : FetchBehavior) (now : Int) (i : Nat)
    (L : Ledger) :
    process_audit_events d fb now i L
      = process_audit_events_claimed d fb now i L
    ∨ (process_audit_events d fb now i L).acquired = false := by
  unfold process_audit_events
  rcases hc : check_existing_process d L with _ | r
  · exact Or.inl rfl
  · by_cases ht : isTerminal r.status = true
    · refine Or.inr ?_
      simp [ht]
    · simp [ht]

theorem process_eq_claimed_of_acquired (d : Nat) (fb : FetchBehavior)
    (now : Int) (i : Nat) (L : Ledger)
    (hacq : (process_audit_events d fb now i L).acquired = true) :
    process_audit_events d fb now i L
      = process_audit_events_claimed d fb now i L := by
  rcases process_cases d fb now i L with h | h
  · exact h
  · rw [h] at hacq
    cases hacq

theorem claimed_releases_spec (d : Nat) (fb : FetchBehavior) (now : Int)
    (i : Nat) (L : Ledger)
    (hacq : (process_audit_events_claimed d fb now i L).acquired = true) :
    (process_audit_events_claimed d fb now i L).releases.length = 1
    ∧ ∀ c ∈ (process_audit_events_claimed d fb now i L).releases,
        c.target_date = d ∧ isTerminal c.final_status = true := by
  rcases hA : acquire_processing_lock d now i L with ⟨b, L1⟩
  cases b with
  | false =>
    rw [claimed_eq_acquire_false d fb now i L L1 hA] at hacq
    cases hacq
  | true =>
    cases fb with
    | http o =>
      by_cases hs : (get_audit_events o).success = true
      · rw [claimed_eq_http_success d o now i L L1 hA hs]
        refine ⟨rfl, fun c hcm => ?_⟩
        have hce : c = ⟨d, "SUCCESS", (get_audit_events o).count, none⟩ := by
          simpa using hcm
        subst hce
        exact ⟨rfl, rfl⟩
      · have hs2 : (get_audit_events o).success = false := by
          simpa using hs
        rw [claimed_eq_http_failure d o now i L L1 hA hs2]
        refine ⟨rfl, fun c hcm => ?_⟩
        have hce : c = ⟨d, "FAILED", 0, (get_audit_events o).error⟩ := by
          simpa using hcm
        subst hce
        exact ⟨rfl, rfl⟩
    | raises m =>
      rw [claimed_eq_raises d m now i L L1 hA]
      refine ⟨rfl, fun c hcm => ?_⟩
      have hce : c = ⟨d, "ERROR", 0, some (s!"Unexpected error: {m}")⟩ := by
        simpa using hcm
      subst hce
      exact ⟨rfl, rfl⟩

/-- C3: whenever the orchestrator acquires the lock, it issues exactly one
release call before returning, for the same date and with a terminal
final status, on every fetch behaviour (success, provider failure, or an
unexpected exception). -/
theorem orchestrator_release_completeness (d : Nat) (fb : FetchBehavior)
    (now : Int) (i : Nat) (L : Ledger)
    (hacq : (process_audit_events d fb now i L).acquired = true) :
    (process_audit_events d fb now i L).releases.length = 1
    ∧ ∀ c ∈ (process_audit_events d fb now i L).releases,
        c.target_date = d ∧ isTerminal c.final_status = true := by
  have he := process_eq_claimed_of_acquired d fb now i L hacq
  rw [he] at hacq ⊢
  exact claimed_releases_spec d fb now i L hacq

/-- C3 witness: a run on the empty ledger that acquires the lock and whose
fetch raises an unexpected exception makes exactly one, terminal, release
call. -/
theorem orchestrator_release_completeness_witness :
    (process_audit_events 7 (.raises "boom") 100 2 []).releases.length = 1
    ∧ ∀ c ∈ (process_audit_events 7 (.raises "boom") 100 2 []).releases,
        c.target_date = 7 ∧ isTerminal c.final_status = true :=
  orchestrator_release_completeness 7 (.raises "boom") 100 2 [] (by decide)

/-- C4 counterexample: a stuck PROCESSING record (created_at 0, cutoff
200000 - 24h = 113600) is transitioned by the sweep, but its diagnostic is
the source's literal 'Process was stuck and cleaned up', not the spec text
"claim abandoned, reclaimed by cleanup sweep". -/
theorem cleanup_message_counterexample :
    (cleanup_stuck_processes 24 200000
        [⟨1, 5, "PROCESSING", 0, none, 0, 0⟩]).map
        (fun r => r.error_message)
      = [some "Process was stuck and cleaned up"]
    ∧ "Process was stuck and cleaned up"
        ≠ "claim abandoned, reclaimed by cleanup sweep" := by
  decide

/-- C4 (amended): the cleanup sweep maps the ledger pointwise — every
record with status PROCESSING and created_at strictly older than
now - hoursThreshold becomes ERROR with the diagnostic
'Process was stuck and cleaned up' and a refreshed updated_at, and every
other record (younger, or in a non-PROCESSING status) is left exactly as it
was; no record is added or removed. -/
theorem cleanup_stuck_processes_spec (hrs : Nat) (now : Int) (L : Ledger) :
    List.Forall₂ (fun r r2 =>
      r2 = if r.status = "PROCESSING" ∧ r.created_at < stuckCutoff hrs now
           then { r with status := "ERROR",
                         error_message := some "Process was stuck and cleaned up",
                         updated_at := now }
           else r)
      L (cleanup_stuck_processes hrs now L) := by
  induction L with
  | nil => exact List.Forall₂.nil
  | cons a as ih => exact List.Forall₂.cons rfl ih

/-- C5: when a record with a terminal status already exists for the target
date, the orchestrator returns False immediately: no fetch call is made, no
release call is issued, the lock is not acquired, and the ledger is
returned unchanged. -/
theorem terminal_record_short_circuit (d : Nat) (fb : FetchBehavior)
    (now : Int) (i : Nat) (L : Ledger) (r : RunRecord)
    (hfind : check_existing_process d L = some r)
    (hterm : isTerminal r.status = true) :
    process_audit_events d fb now i L =
      { retVal := false, ledger := L, releases := [],
        fetchCalled := false, acquired := false } := by
  unfold process_audit_events
  rw [hfind]
  simp [hterm]

/-- C5 witness: a SUCCESS record for date 7 short-circuits the run. -/
theorem terminal_record_short_circuit_witness :
    check_existing_process 7 [⟨1, 7, "SUCCESS", 3, none, 0, 0⟩]
        = some ⟨1, 7, "SUCCESS", 3, none, 0, 0⟩
    ∧ isTerminal "SUCCESS" = true
    ∧ process_audit_events 7 (.http (.response 200 [] "")) 100 2
        [⟨1, 7, "SUCCESS", 3, none, 0, 0⟩]
      = { retVal := false, ledger := [⟨1, 7, "SUCCESS", 3, none, 0, 0⟩],
          releases := [], fetchCalled := false, acquired := false } :=
  ⟨by decide, by decide,
   terminal_record_short_circuit 7 (.http (.response 200 [] "")) 100 2
     [⟨1, 7, "SUCCESS", 3, none, 0, 0⟩] ⟨1, 7, "SUCCESS", 3, none, 0, 0⟩
     (by decide) (by decide)⟩

/-- C6: after the cleanup sweep turns a stuck PROCESSING record for a date
into an ERROR record, that ERROR record occupies the date in the swept
ledger, and a subsequent acquire for the same date returns false. -/
theorem cleanup_then_acquire_denied (d : Nat) (hrs : Nat) (now now2 : Int)
    (i : Nat) (L : Ledger) (r : RunRecord) (hr : r ∈ L)
    (hd : r.process_date = d) (hst : r.status = "PROCESSING")
    (hold : r.created_at < stuckCutoff hrs now) :
    ({ r with status := "ERROR",
              error_message := some "Process was stuck and cleaned up",
              updated_at := now } ∈ cleanup_stuck_processes hrs now L)
    ∧ (acquire_processing_lock d now2 i
        (cleanup_stuck_processes hrs now L)).fst = false := by
  have hmem : ({ r with status := "ERROR",
                        error_message := some "Process was stuck and cleaned up",
                        updated_at := now } ∈ cleanup_stuck_processes hrs now L) := by
    unfold cleanup_stuck_processes
    exact List.mem_map.mpr ⟨r, hr, by rw [if_pos ⟨hst, hold⟩]⟩
  refine ⟨hmem, ?_⟩
  have hE : ∃ r1 ∈ cleanup_stuck_processes hrs now L, r1.process_date = d :=
    ⟨_, hmem, hd⟩
  rw [acquire_eq_of_exists d now2 i _ hE]

/-- C6 witness: a stuck PROCESSING record for date 5 is reclaimed to ERROR
by the sweep and a fresh acquire for date 5 is then still denied. -/
theorem cleanup_then_acquire_denied_witness :
    ((⟨1, 5, "ERROR", 0, some "Process was stuck and cleaned up", 0,
        200000⟩ : RunRecord)
        ∈ cleanup_stuck_processes 24 200000
            [⟨1, 5, "PROCESSING", 0, none, 0, 0⟩])
    ∧ (acquire_processing_lock 5 200001 9
        (cleanup_stuck_processes 24 200000
          [⟨1, 5, "PROCESSING", 0, none, 0, 0⟩])).fst = false :=
  cleanup_then_acquire_denied 5 24 200000 200001 9
    [⟨1, 5, "PROCESSING", 0, none, 0, 0⟩]
    ⟨1, 5, "PROCESSING", 0, none, 0, 0⟩ (by decide) rfl rfl (by decide)

/-- C7: once the lock is acquired, the run resolves to FAILED with the
provider-derived diagnostic exactly when the fetch reports a structured
failure (a non-200 response, or a RequestException surfaced as a result),
resolves to SUCCESS on a 200, and resolves to ERROR with a diagnostic
containing the exception text for any other exception; every one of these
faults is converted into a single terminal release call rather than
escaping the orchestrator. -/
theorem orchestrator_failure_resolution (d : Nat) (fb : FetchBehavior)
    (now : Int) (i : Nat) (L : Ledger)
    (hacq : (process_audit_events d fb now i L).acquired = true) :
    (process_audit_events d fb now i L).releases =
      match fb with
      | .http (.response sc evs err) =>
        if sc = 200 then [⟨d, "SUCCESS", evs.length, none⟩]
        else [⟨d, "FAILED", 0,
               some (s!"API request failed with status {sc}: {err}")⟩]
      | .http (.requestException m) =>
        [⟨d, "FAILED", 0, some (s!"Request failed: {m}")⟩]
      | .raises m =>
        [⟨d, "ERROR", 0, some (s!"Unexpected error: {m}")⟩] := by
  have he := process_eq_claimed_of_acquired d fb now i L hacq
  rw [he] at hacq ⊢
  rcases hA : acquire_processing_lock d now i L with ⟨b, L1⟩
  cases b with
  | false =>
    rw [claimed_eq_acquire_false d fb now i L L1 hA] at hacq
    cases hacq
  | true =>
    cases fb with
    | http o =>
      cases o with
      | response sc evs err =>
        by_cases h200 : sc = 200
        · subst h200
          have hs : (get_audit_events (.response 200 evs err)).success
              = true := rfl
          rw [claimed_eq_http_success d _ now i L L1 hA hs]
          simp [get_audit_events]
        · have hs : (get_audit_events (.response sc evs err)).success
              = false := by
            simp [get_audit_events, h200]
          rw [claimed_eq_http_failure d _ now i L L1 hA hs]
          simp [get_audit_events, h200]
      | requestException m =>
        have hs : (get_audit_events (.requestException m)).success
            = false := rfl
        rw [claimed_eq_http_failure d _ now i L L1 hA hs]
        simp [get_audit_events]
    | raises m =>
      rw [claimed_eq_raises d m now i L L1 hA]

/-- C7 witness: a 404 response on an acquired run resolves to a single
FAILED release carrying the composed API diagnostic. -/
theorem orchestrator_failure_resolution_witness :
    (process_audit_events 7 (.http (.response 404 [] "not found")) 100 2
        []).releases
      = [⟨7, "FAILED", 0,
          some "API request failed with status 404: not found"⟩] :=
  orchestrator_failure_resolution 7 (.http (.response 404 [] "not found"))
    100 2 [] (by decide)

theorem release_id_of_no_processing (d : Nat) (fs : String) (ec : Nat)
    (em : Option String) (now : Int) :
    ∀ L : Ledger,
      (¬ ∃ r ∈ L, r.process_date = d ∧ r.status = "PROCESSING") →
      release_processing_lock d fs ec em now L = L := by
  intro L
  induction L with
  | nil => intro _; rfl
  | cons a as ih =>
    intro h
    simp only [release_processing_lock]
    rw [if_neg (fun hc => h ⟨a, List.mem_cons_self a as, hc⟩),
        ih (fun hex =>
          h ⟨hex.choose, List.mem_cons_of_mem a hex.choose_spec.1,
             hex.choose_spec.2⟩)]

theorem release_eq_decomp (d : Nat) (fs : String) (ec : Nat)
    (em : Option String) (now : Int) :
    ∀ L1 : Ledger, ∀ L2 : Ledger, ∀ r : RunRecord,
      r.process_date = d → r.status = "PROCESSING" →
      (¬ ∃ r1 ∈ L1, r1.process_date = d ∧ r1.status = "PROCESSING") →
      release_processing_lock d fs ec em now (L1 ++ r :: L2)
        = L1 ++ releaseUpdate r fs ec em now :: L2 := by
  intro L1
  induction L1 with
  | nil =>
    intro L2 r hd hs _
    simp only [List.nil_append, release_processing_lock]
    rw [if_pos ⟨hd, hs⟩]
  | cons a as ih =>
    intro L2 r hd hs h1
    show release_processing_lock d fs ec em now (a :: (as ++ r :: L2))
        = a :: (as ++ releaseUpdate r fs ec em now :: L2)
    simp only [release_processing_lock]
    rw [if_neg (fun hc => h1 ⟨a, List.mem_cons_self a as, hc⟩),
        ih L2 r hd hs (fun hex =>
          h1 ⟨hex.choose, List.mem_cons_of_mem a hex.choose_spec.1,
              hex.choose_spec.2⟩)]

/-- C8: when no record for the date currently has status PROCESSING,
release returns the ledger unchanged (the anomaly is only logged); when
the first such record exists, release overwrites exactly its status,
events_count and error_message and refreshes its updated_at, leaving all
other records in place. -/
theorem release_processing_lock_spec (d : Nat) (fs : String) (ec : Nat)
    (em : Option String) (now : Int) (L : Ledger) :
    ((¬ ∃ r ∈ L, r.process_date = d ∧ r.status = "PROCESSING") →
       release_processing_lock d fs ec em now L = L)
    ∧ (∀ L1 L2 : Ledger, ∀ r : RunRecord, L = L1 ++ r :: L2 →
        r.process_date = d → r.status = "PROCESSING" →
        (¬ ∃ r1 ∈ L1, r1.process_date = d ∧ r1.status = "PROCESSING") →
        release_processing_lock d fs ec em now L
          = L1 ++ releaseUpdate r fs ec em now :: L2) :=
  ⟨release_id_of_no_processing d fs ec em now L,
   fun L1 L2 r hL hd hs h1 => by
     rw [hL]
     exact release_eq_decomp d fs ec em now L1 L2 r hd hs h1⟩

/-- C8 witness: releasing date 5 with SUCCESS and 42 events overwrites the
single PROCESSING record's mutable fields and refreshes updated_at, and a
release against a ledger with no PROCESSING record for the date leaves it
unchanged. -/
theorem release_processing_lock_spec_witness :
    release_processing_lock 5 "SUCCESS" 42 none 100
        [⟨1, 5, "PROCESSING", 0, none, 7, 7⟩]
      = [⟨1, 5, "SUCCESS", 42, none, 7, 100⟩]
    ∧ release_processing_lock 5 "SUCCESS" 42 none 100
        [⟨1, 5, "FAILED", 0, some "x", 7, 7⟩]
      = [⟨1, 5, "FAILED", 0, some "x", 7, 7⟩] :=
  ⟨(release_processing_lock_spec 5 "SUCCESS" 42 none 100
      [⟨1, 5, "PROCESSING", 0, none, 7, 7⟩]).2
      [] [] ⟨1, 5, "PROCESSING", 0, none, 7, 7⟩ rfl rfl rfl (by simp),
   (release_processing_lock_spec 5 "SUCCESS" 42 none 100
      [⟨1, 5, "FAILED", 0, some "x", 7, 7⟩]).1 (by decide)⟩

theorem check_existing_some (d : Nat) (L : Ledger) (r : RunRecord)
    (h : check_existing_process d L = some r) :
    r ∈ L ∧ r.process_date = d := by
  unfold check_existing_process at h
  have hm : r ∈ L.filter (fun r => r.process_date == d) := by
    cases hf : L.filter (fun r => r.process_date == d) with
    | nil => rw [hf] at h; cases h
    | cons a as =>
      rw [hf] at h
      simp only [List.head?_cons, Option.some.injEq] at h
      exact h ▸ List.mem_cons_self a as
  rcases List.mem_filter.mp hm with ⟨h1, h2⟩
  exact ⟨h1, by simpa using h2⟩

/-- C9 counterexample: with a live PROCESSING record for date 5, the run is
denied the claim, `process_audit_events` returns False, and the process
exit code computed by `main` is 1, not the non-error code 0 the claim
states. -/
theorem contention_exit_code_counterexample :
    (process_audit_events 5 (.http (.response 200 [] "")) 100 2
        [⟨1, 5, "PROCESSING", 0, none, 0, 0⟩]).retVal = false
    ∧ mainExitCode (process_audit_events 5 (.http (.response 200 [] "")) 100 2
        [⟨1, 5, "PROCESSING", 0, none, 0, 0⟩]).retVal ≠ 0 := by
  decide

/-- C9 (amended): when the claim for the target date is denied (a
non-terminal record for the date exists, so acquire fails), the run treats
it as contention — it makes no release call and does not crash — but
`process_audit_events` returns False and `main` exits with the error code
1, the same non-zero exit code as a failed run. -/
theorem contention_exits_nonzero (d : Nat) (fb : FetchBehavior) (now : Int)
    (i : Nat) (L : Ledger) (r : RunRecord)
    (hfind : check_existing_process d L = some r)
    (hnt : isTerminal r.status = false) :
    (process_audit_events d fb now i L).acquired = false
    ∧ (process_audit_events d fb now i L).releases = []
    ∧ (process_audit_events d fb now i L).retVal = false
    ∧ mainExitCode (process_audit_events d fb now i L).retVal = 1 := by
  have hex : ∃ r1 ∈ L, r1.process_date = d := by
    rcases check_existing_some d L r hfind with ⟨hm, hd⟩
    exact ⟨r, hm, hd⟩
  have hP : process_audit_events d fb now i L
      = process_audit_events_claimed d fb now i L := by
    unfold process_audit_events
    rw [hfind]
    simp [hnt]
  have hC := claimed_eq_acquire_false d fb now i L L
    (acquire_eq_of_exists d now i L hex)
  rw [hP, hC]
  exact ⟨rfl, rfl, rfl, rfl⟩

/-- C9 witness: the amended statement at the concrete contended ledger. -/
theorem contention_exits_nonzero_witness :
    (process_audit_events 5 (.http (.response 200 [] "")) 100 2
        [⟨1, 5, "PROCESSING", 0, none, 0, 0⟩]).acquired = false
    ∧ (process_audit_events 5 (.http (.response 200 [] "")) 100 2
        [⟨1, 5, "PROCESSING", 0, none, 0, 0⟩]).releases = []
    ∧ (process_audit_events 5 (.http (.response 200 [] "")) 100 2
        [⟨1, 5, "PROCESSING", 0, none, 0, 0⟩]).retVal = false
    ∧ mainExitCode (process_audit_events 5 (.http (.response 200 [] "")) 100 2
        [⟨1, 5, "PROCESSING", 0, none, 0, 0⟩]).retVal = 1 :=
  contention_exits_nonzero 5 (.http (.response 200 [] "")) 100 2
    [⟨1, 5, "PROCESSING", 0, none, 0, 0⟩]
    ⟨1, 5, "PROCESSING", 0, none, 0, 0⟩ (by decide) (by decide)

theorem reset_date_no_date (d : Nat) :
    ∀ L : Ledger, L.countP (fun r => r.process_date == d) ≤ 1 →
      ∀ r ∈ reset_date d L, r.process_date ≠ d := by
  intro L
  induction L with
  | nil => intro _ r hr; cases hr
  | cons a as ih =>
    intro h r hr
    simp only [reset_date] at hr
    by_cases hc : a.process_date = d
    · rw [if_pos hc] at hr
      have hz : as.countP (fun r => r.process_date == d) = 0 := by
        rw [List.countP_cons] at h
        simp only [hc, beq_self_eq_true, if_true] at h
        omega
      intro hd
      have hzz := List.countP_eq_zero.mp hz r hr
      simp [hd] at hzz
    · rw [if_neg hc] at hr
      rcases List.mem_cons.mp hr with h1 | h1
      · subst h1
        exact hc
      · refine ih ?_ r h1
        rw [List.countP_cons] at h
        omega

theorem mem_reset_of_ne (d : Nat) :
    ∀ L : Ledger, ∀ r ∈ L, r.process_date ≠ d → r ∈ reset_date d L := by
  intro L
  induction L with
  | nil => intro r hr; cases hr
  | cons a as ih =>
    intro r hr hd
    simp only [reset_date]
    by_cases hc : a.process_date = d
    · rw [if_pos hc]
      rcases List.mem_cons.mp hr with h1 | h1
      · subst h1
        exact absurd hc hd
      · exact h1
    · rw [if_neg hc]
      rcases List.mem_cons.mp hr with h1 | h1
      · exact h1 ▸ List.mem_cons_self _ _
      · exact List.mem_cons_of_mem _ (ih r h1 hd)

theorem delete_logs_removes (ids : List Nat) (L : Ledger) :
    ∀ r ∈ (delete_audit_events_logs ids L).snd, r.id ∉ ids := by
  intro r hr
  have hb := (List.mem_filter.mp hr).2
  simpa using hb

/-- C10: the administrative reset deletes the date's record whatever its
status is — in a ledger with at most one record per date (the uniqueness
constraint) no record for the date remains — so a subsequent acquire for
that date succeeds again; records for other dates are untouched, and the
dashboard bulk delete removes exactly the records whose ids were given,
also regardless of status. -/
theorem reset_date_reopens (d : Nat) (now : Int) (i : Nat) (L : Ledger)
    (huniq : L.countP (fun r => r.process_date == d) ≤ 1) :
    (∀ r ∈ reset_date d L, r.process_date ≠ d)
    ∧ (acquire_processing_lock d now i (reset_date d L)).fst = true
    ∧ (∀ r ∈ L, r.process_date ≠ d → r ∈ reset_date d L)
    ∧ (∀ ids : List Nat, ∀ r ∈ (delete_audit_events_logs ids L).snd,
        r.id ∉ ids) := by
  have h1 := reset_date_no_date d L huniq
  refine ⟨h1, ?_, fun r hr hd => mem_reset_of_ne d L r hr hd,
          fun ids => delete_logs_removes ids L⟩
  have hne : ¬ ∃ r ∈ reset_date d L, r.process_date = d :=
    fun hex => h1 hex.choose hex.choose_spec.1 hex.choose_spec.2
  rw [acquire_eq_of_not_exists d now i _ hne]

/-- C10 witness: deleting the record of a date whose claim is still
PROCESSING re-opens the date — the next acquire returns true. -/
theorem reset_date_reopens_witness :
    (acquire_processing_lock 5 300 9
        (reset_date 5 [⟨1, 5, "PROCESSING", 0, none, 0, 0⟩])).fst = true :=
  (reset_date_reopens 5 300 9 [⟨1, 5, "PROCESSING", 0, none, 0, 0⟩]
    (by decide)).2.1
